import Mathlib

/-!
Verification of the per-column ML imputation pipeline of
`YoutubeTrends_DataEngineering/notebooks/DataCleaning.py`.

A pandas dataframe is embedded as a list of named, typed columns; each cell is
an `Option Value` (`none` is a missing value / NaN).  The sklearn pipeline
(`StandardScaler`, `OneHotEncoder`, random-forest model, fixed random seed)
is deterministic given the training data, so a fitted model artifact is
embedded as the data that determines it (feature list, cat/num split,
training rows), and prediction is an opaque oracle parameter
`predict : ModelArtifact → List (Option Value) → Value` that all theorems
quantify over.  The model directory is embedded as an explicit file-system
value: `joblib.dump` writes the artifact under the key
`(model_dir, target_column)` standing for the path
`<model_dir>/<target_column>_model.pkl` (`os.path.join` is injective in the
two components), and `joblib.load` reads it back.  Fallible code paths
(`KeyError` from a missing column, `TypeError` from `np.maximum` on
non-numeric predictions) return `Except.error`.  Python-level in-place
mutation (`df.loc[mask, target] = ...`, `df.copy()`) is modelled with an
explicit heap of dataframe objects for the frame-effect theorems.
-/

namespace DataCleaning

/-- Pandas dtypes relevant to this pipeline: `numeric` (int/float), `object`
(text), `category`, and any other dtype (e.g. datetime64), which the code
treats uniformly. -/
inductive Dtype where
  | numeric
  | object
  | category
  | datetime
  deriving DecidableEq, Repr

/-- A non-missing cell value: a number or a string. -/
inductive Value where
  | num (q : ℚ)
  | str (s : String)
  deriving DecidableEq, Repr

/-- Whether a value is numeric (used to model `np.maximum` applicability). -/
def Value.isNum : Value → Bool
  | .num _ => true
  | .str _ => false

/-- One dataframe column: a name, a dtype, and a list of cells where `none`
is a missing value. -/
structure Column where
  name : String
  dtype : Dtype
  cells : List (Option Value)
  deriving DecidableEq, Repr

/-- A dataframe is an ordered list of columns. -/
structure DataFrame where
  cols : List Column
  deriving DecidableEq, Repr

/-- Number of missing cells of a cell list (`series.isnull().sum()`). -/
def nullCount (cells : List (Option Value)) : Nat :=
  cells.countP (fun c => c.isNone)

/-- Number of non-missing cells of a cell list (`series.notna().sum()`). -/
def someCount (cells : List (Option Value)) : Nat :=
  cells.countP (fun c => c.isSome)

/-- Column lookup by name (`df[name]`); first match, `none` when absent. -/
def DataFrame.getCol (df : DataFrame) (n : String) : Option Column :=
  df.cols.find? (fun c => c.name == n)

/-- Number of rows of the dataframe. -/
def DataFrame.nrows (df : DataFrame) : Nat :=
  match df.cols with
  | [] => 0
  | c :: _ => c.cells.length

/-- Well-formedness: every column has `nrows` cells (pandas keeps all columns
of a dataframe at the same length). -/
def Aligned (df : DataFrame) : Prop :=
  ∀ c ∈ df.cols, c.cells.length = df.nrows

instance (df : DataFrame) : Decidable (Aligned df) := by
  unfold Aligned
  exact List.decidableBAll _ _

/-- Well-formedness: column names are pairwise distinct. -/
def NamesNodup (df : DataFrame) : Prop :=
  (df.cols.map Column.name).Nodup

instance (df : DataFrame) : Decidable (NamesNodup df) := by
  unfold NamesNodup
  exact List.nodupDecidable _

/-- Row `i` is entirely missing (every column has `none` there). -/
def DataFrame.isAllNullRow (df : DataFrame) (i : Nat) : Bool :=
  df.cols.all (fun c => (c.cells.getD i none).isNone)

/-- Indices of the rows kept by `df.dropna(axis=0, how='all')`. -/
def DataFrame.keepIdx (df : DataFrame) : List Nat :=
  (List.range df.nrows).filter (fun i => !(df.isAllNullRow i))

/-- `df.dropna(axis=0, how='all')`: remove the rows whose cells are all
missing; returns a new dataframe, the receiver is untouched. -/
def DataFrame.dropnaAllRows (df : DataFrame) : DataFrame :=
  ⟨df.cols.map (fun c => { c with cells := df.keepIdx.map (fun i => c.cells.getD i none) })⟩

/-- `detect_column_types(df)`: partition column names into
(categorical, numeric) by declared dtype; `object` and `category` count as
categorical, `number` as numeric.  No side effects. -/
def detect_column_types (df : DataFrame) : List String × List String :=
  ((df.cols.filter (fun c => c.dtype == .object || c.dtype == .category)).map Column.name,
   (df.cols.filter (fun c => c.dtype == .numeric)).map Column.name)

/-- The feature list computed inside `train_imputation_model`:
`[col for col in df.columns if col != target_column and df[col].isnull().sum() == 0]`
(evaluated on the dataframe after dropping fully-null rows). -/
def features_of (df : DataFrame) (target : String) : List String :=
  (df.cols.filter (fun c => c.name != target && nullCount c.cells == 0)).map Column.name

/-- Indices of the non-missing rows of a cell list (`series.notna()` mask). -/
def someIdx (cells : List (Option Value)) : List Nat :=
  (List.range cells.length).filter (fun i => (cells.getD i none).isSome)

/-- Indices of the missing rows of a cell list (`series.isnull()` mask). -/
def nullIdx (cells : List (Option Value)) : List Nat :=
  (List.range cells.length).filter (fun i => (cells.getD i none).isNone)

/-- The row of feature values at row `i`, in feature-list order
(`df.loc[i, features]`); an absent column contributes `none` (the real code
would have raised before reaching this point). -/
def featureRow (df : DataFrame) (features : List String) (i : Nat) : List (Option Value) :=
  features.map (fun f =>
    match df.getCol f with
    | some c => c.cells.getD i none
    | none => none)

/-- The persisted `(preprocessor, model)` pipeline written by `joblib.dump`:
everything the deterministic fit (fixed `random_state=42`) depends on.
`features` is `preprocessor.feature_names_in_`. -/
structure ModelArtifact where
  features : List String
  catFeatures : List String
  numFeatures : List String
  trainX : List (List (Option Value))
  trainY : List Value
  isRegression : Bool
  deriving DecidableEq, Repr

/-- The prediction oracle: any function of the fitted artifact and a feature
row.  The real `pipeline.predict` is one such function. -/
def Predict : Type :=
  ModelArtifact → List (Option Value) → Value

/-- The file system visible to this pipeline: the set of existing directories
and the pickled artifacts, keyed by `(model_dir, target_column)` which stands
for the path `<model_dir>/<target_column>_model.pkl`. -/
structure FS where
  dirs : List String
  files : List ((String × String) × ModelArtifact)
  deriving DecidableEq, Repr

/-- `os.makedirs(model_dir, exist_ok=True)`. -/
def FS.mkdirs (fs : FS) (d : String) : FS :=
  if d ∈ fs.dirs then fs else ⟨d :: fs.dirs, fs.files⟩

/-- First-match association lookup among the pickle files
(`os.path.exists` + `joblib.load`). -/
def lookupFile : List ((String × String) × ModelArtifact) → (String × String) → Option ModelArtifact
  | [], _ => none
  | (k, a) :: rest, q => if k = q then some a else lookupFile rest q

/-- `joblib.dump(artifact, path)`: write, overwriting any prior artifact at
that path. -/
def FS.writeFile (fs : FS) (k : String × String) (a : ModelArtifact) : FS :=
  ⟨fs.dirs, (k, a) :: fs.files⟩

/-- `train_imputation_model(df, target_column, model_dir)` (lines 19-77):
creates the model directory, drops fully-null rows (into a local value — the
caller's dataframe is not modified), computes the feature list (the other
columns with zero missing values), gathers the training rows (rows where the
target is non-missing); if fewer than 10 such rows it returns `(None, None)`
having written no file; otherwise it fits the pipeline (regression when the
target dtype is numeric, classification otherwise; the 80/20 validation
split and its score are print-only and affect neither the returned value nor
the persisted artifact), saves the artifact, and returns
`(pipeline, features)`.  A missing target column raises (`Except.error`). -/
def train_imputation_model (df : DataFrame) (target : String) (fs : FS) (md : String) :
    Except String (Option (ModelArtifact × List String)) × FS :=
  let fs1 := fs.mkdirs md
  let dfd := df.dropnaAllRows
  let ctypes := detect_column_types dfd
  let features := features_of dfd target
  match dfd.getCol target with
  | none => (.error "KeyError: target column not in dataframe", fs1)
  | some tc =>
    let mask := someIdx tc.cells
    let trainX := mask.map (fun i => featureRow dfd features i)
    let trainY := mask.filterMap (fun i => tc.cells.getD i none)
    if trainX.length < 10 then
      (.ok none, fs1)
    else
      let art : ModelArtifact :=
        { features := features
          catFeatures := features.filter (fun f => ctypes.1.contains f)
          numFeatures := features.filter (fun f => ctypes.2.contains f)
          trainX := trainX
          trainY := trainY
          isRegression := tc.dtype == .numeric }
      (.ok (some (art, features)), fs1.writeFile (md, target) art)

/-- `np.maximum(0, v)` on a single numeric prediction (strings are handled
separately: `np.maximum` raises on them, see `impute_missing_values`). -/
def npMaximum0 : Value → Value
  | .num q => .num (max 0 q)
  | .str s => .str s

/-- Fill the `none` cells of a list with `f i` at absolute index `i`,
leaving the `some` cells unchanged: the effect of
`df.loc[mask, target_column] = predicted_values`. -/
def fillNones (f : Nat → Value) : Nat → List (Option Value) → List (Option Value)
  | _, [] => []
  | i, none :: rest => some (f i) :: fillNones f (i + 1) rest
  | i, some v :: rest => some v :: fillNones f (i + 1) rest

/-- Replace the cells of the column named `n` (in-place column assignment). -/
def DataFrame.setCol (df : DataFrame) (n : String) (cells : List (Option Value)) : DataFrame :=
  ⟨df.cols.map (fun c => if c.name == n then { c with cells := cells } else c)⟩

/-- `impute_missing_values(df, target_column, model_dir)` (lines 80-104):
if no pickled model exists for the column, return the dataframe unchanged;
otherwise load the artifact, take the mask of missing target rows (a missing
target column raises `KeyError`); if the mask is empty return the dataframe
unchanged; otherwise build the feature matrix from the artifact's
`feature_names_in_` (a missing feature column raises `KeyError`), predict,
clamp predictions to a minimum of 0 when the target dtype is numeric
(`np.maximum` raises `TypeError` on a non-numeric prediction), and write the
predictions into the dataframe at the missing positions. -/
def impute_missing_values (predict : Predict) (df : DataFrame) (target : String)
    (fs : FS) (md : String) : Except String DataFrame :=
  match lookupFile fs.files (md, target) with
  | none => .ok df
  | some art =>
    match df.getCol target with
    | none => .error "KeyError: target column not in dataframe"
    | some tc =>
      if nullCount tc.cells = 0 then
        .ok df
      else if art.features.all (fun f => (df.getCol f).isSome) then
        if tc.dtype = .numeric then
          if (nullIdx tc.cells).all
              (fun i => (predict art (featureRow df art.features i)).isNum) then
            .ok (df.setCol target
              (fillNones (fun i => npMaximum0 (predict art (featureRow df art.features i)))
                0 tc.cells))
          else
            .error "TypeError: np.maximum on non-numeric predictions"
        else
          .ok (df.setCol target
            (fillNones (fun i => predict art (featureRow df art.features i)) 0 tc.cells))
      else
        .error "KeyError: feature column not in dataframe"

/-- The column names with at least one missing value
(`df.columns[df.isnull().sum() > 0]`, line 112). -/
def target_cols (df : DataFrame) : List String :=
  (df.cols.filter (fun c => 0 < nullCount c.cells)).map Column.name

/-- `pd.api.types.is_numeric_dtype(df[col]) or pd.api.types.is_object_dtype(df[col])`. -/
def is_numeric_or_object (df : DataFrame) (n : String) : Bool :=
  match df.getCol n with
  | some c => c.dtype == .numeric || c.dtype == .object
  | none => false

/-- The imputation targets selected by `fill_null_ML` (lines 112-118):
columns with at least one missing value whose dtype is numeric or object. -/
def eligible_cols (df : DataFrame) : List String :=
  (target_cols df).filter (fun n => is_numeric_or_object df n)

/-- Modelled from the spec: the spec says targets are the columns with at
least one missing value "restricted to numeric or text/categorical dtypes";
in this repository `detect_column_types` counts both `object` and `category`
as categorical, so the spec's selection includes `category` columns.  This
definition follows the spec's words, to be compared with `eligible_cols`. -/
def spec_eligible_cols (df : DataFrame) : List String :=
  (df.cols.filter (fun c =>
    0 < nullCount c.cells &&
      (c.dtype == .numeric || c.dtype == .object || c.dtype == .category))).map Column.name

/-- The `for col in eligible_cols` loop body of `fill_null_ML`
(lines 120-123): train, and when a model was returned, impute; the
dataframe is threaded through, the model directory accumulates files. -/
def processCols (predict : Predict) (md : String) :
    List String → DataFrame → FS → Except String (DataFrame × FS)
  | [], df, fs => .ok (df, fs)
  | c :: rest, df, fs =>
    match train_imputation_model df c fs md with
    | (.error e, _) => .error e
    | (.ok none, fs1) => processCols predict md rest df fs1
    | (.ok (some _), fs1) =>
      match impute_missing_values predict df c fs1 md with
      | .error e => .error e
      | .ok df1 => processCols predict md rest df1 fs1

/-- `fill_null_ML(df, model_dir)` (lines 107-126): copy the input, select
the eligible columns once from the copy, and run train-then-impute on each
in the natural column order.  (This value-level function is the body run on
the copy; the copy itself is visible in `fill_null_ML_heap`.) -/
def fill_null_ML (predict : Predict) (df : DataFrame) (fs : FS) (md : String) :
    Except String (DataFrame × FS) :=
  processCols predict md (eligible_cols df) df fs

/-- Total number of non-missing cells of a dataframe. -/
def totalSomeCount (df : DataFrame) : Nat :=
  (df.cols.map (fun c => someCount c.cells)).sum

/-- No row of the dataframe is entirely missing. -/
def NoAllNullRow (df : DataFrame) : Prop :=
  ∀ i, i < df.nrows → df.isAllNullRow i = false

instance (df : DataFrame) : Decidable (NoAllNullRow df) := by
  unfold NoAllNullRow
  exact Nat.decidableBallLT _ _

/-! ### Heap model of Python object mutation

`fill_null_ML` does `df = df.copy()` and then mutates the copy in place
through `impute_missing_values` (`df.loc[mask, target] = ...`), while
`train_imputation_model` only rebinds its local name
(`df = df.dropna(...)` returns a fresh object).  To state "the caller's
dataframe object is never mutated" we run the same code over an explicit
heap of dataframe objects addressed by `Nat` references. -/

/-- A heap of Python dataframe objects. -/
def Heap : Type :=
  Nat → DataFrame

/-- In-place mutation of the object at reference `r`. -/
def Heap.update (h : Heap) (r : Nat) (df : DataFrame) : Heap :=
  fun x => if x = r then df else h x

/-- `train_imputation_model` at the heap level: it reads the dataframe at
`r`; `df.dropna(axis=0, how='all')` returns a fresh local object, so no heap
cell is written; the file system carries its effects. -/
def train_imputation_model_heap (h : Heap) (r : Nat) (target : String) (fs : FS)
    (md : String) : Heap × (Except String (Option (ModelArtifact × List String)) × FS) :=
  (h, train_imputation_model (h r) target fs md)

/-- The `fill_null_ML` loop at the heap level: each iteration trains from
the object at `rc` and, when a model was returned, `impute_missing_values`
writes the imputed dataframe back in place at `rc`. -/
def processColsHeap (predict : Predict) (md : String) :
    List String → Heap → Nat → FS → Heap × FS × Except String Unit
  | [], h, _, fs => (h, fs, .ok ())
  | c :: rest, h, rc, fs =>
    match train_imputation_model (h rc) c fs md with
    | (.error e, fs1) => (h, fs1, .error e)
    | (.ok none, fs1) => processColsHeap predict md rest h rc fs1
    | (.ok (some _), fs1) =>
      match impute_missing_values predict (h rc) c fs1 md with
      | .error e => (h, fs1, .error e)
      | .ok df1 => processColsHeap predict md rest (h.update rc df1) rc fs1

/-- `fill_null_ML` at the heap level: `r` is the caller's dataframe object;
`df = df.copy()` allocates the fresh object `rc` holding a copy of `h r`,
and the loop then runs against `rc`; on success the reference to the copy is
returned. -/
def fill_null_ML_heap (predict : Predict) (h : Heap) (r rc : Nat) (fs : FS)
    (md : String) : Heap × FS × Except String Nat :=
  let h1 := h.update rc (h r)
  match processColsHeap predict md (eligible_cols (h1 rc)) h1 rc fs with
  | (h2, fs2, .ok ()) => (h2, fs2, .ok rc)
  | (h2, fs2, .error e) => (h2, fs2, .error e)

/-! ### Instrumented run for the impute-time invariant (claim C5)

The spec's invariant says that whenever `impute_missing_values` predicts,
the feature columns the loaded artifact expects are still present and fully
populated in the dataframe.  `processColsChecked` is `processCols` plus a
ghost boolean accumulating exactly that check at each impute call; its
dataframe/file-system behaviour is identical (`processColsChecked_fst`). -/

/-- The artifact's expected feature columns are present and fully populated
in `df`. -/
def invariantOKat (df : DataFrame) (art : ModelArtifact) : Bool :=
  art.features.all (fun f =>
    match df.getCol f with
    | some c => nullCount c.cells == 0
    | none => false)

/-- The ghost check made before an impute call: the artifact at
`<md>/<c>_model.pkl` exists and its expected feature columns are present
and fully populated in `df`. -/
def checkAt (df : DataFrame) (fs1 : FS) (md c : String) : Bool :=
  match lookupFile fs1.files (md, c) with
  | some art => invariantOKat df art
  | none => false

/-- `processCols` with a ghost check, evaluated just before each impute
call, of `invariantOKat` for the artifact that call will load. -/
def processColsChecked (predict : Predict) (md : String) :
    List String → DataFrame → FS → Bool → Except String (DataFrame × FS) × Bool
  | [], df, fs, b => (.ok (df, fs), b)
  | c :: rest, df, fs, b =>
    match train_imputation_model df c fs md with
    | (.error e, _) => (.error e, b)
    | (.ok none, fs1) => processColsChecked predict md rest df fs1 b
    | (.ok (some _), fs1) =>
      match impute_missing_values predict df c fs1 md with
      | .error e => (.error e, b && checkAt df fs1 md c)
      | .ok df1 => processColsChecked predict md rest df1 fs1 (b && checkAt df fs1 md c)

/-- The dataframe produced by a pipeline run, when it succeeded. -/
def resultDf (e : Except String (DataFrame × FS)) : Option DataFrame :=
  e.toOption.map Prod.fst

/-- The number of usable training rows of `train_imputation_model`
(`X.shape[0]`): the non-missing count of the target column after dropping
fully-null rows. -/
def trainCount (df : DataFrame) (t : String) : Nat :=
  match (df.dropnaAllRows).getCol t with
  | some tc => someCount tc.cells
  | none => 0

/-- The artifact value produced by a successful `train_imputation_model`
call (the train body's returned record, named for the lemmas below). -/
def trainedArtifact (df : DataFrame) (t : String) (tc : Column) : ModelArtifact :=
  let dfd := df.dropnaAllRows
  let ctypes := detect_column_types dfd
  let features := features_of dfd t
  let tcd : Column := { tc with cells := df.keepIdx.map (fun i => tc.cells.getD i none) }
  let mask := someIdx tcd.cells
  { features := features
    catFeatures := features.filter (fun f => ctypes.1.contains f)
    numFeatures := features.filter (fun f => ctypes.2.contains f)
    trainX := mask.map (fun i => featureRow dfd features i)
    trainY := mask.filterMap (fun i => tcd.cells.getD i none)
    isRegression := tcd.dtype == .numeric }

deriving instance DecidableEq for Except

/-! ### Concrete data used by the witnesses and counterexamples -/

/-- A constant prediction oracle. -/
def predictConst : Predict := fun _ _ => Value.num 1

/-- An oracle predicting a negative number (exercises the clamping). -/
def predictNeg : Predict := fun _ _ => Value.num (-5)

/-- An oracle whose prediction depends on the trained feature set (exercises
order dependence). -/
def predictFeatLen : Predict := fun art _ => Value.num (art.features.length : ℚ)

/-- The empty file system. -/
def fs0 : FS := ⟨[], []⟩

/-- The file system after only `os.makedirs("m")`. -/
def fsM : FS := ⟨["m"], []⟩

/-- Shorthand for a non-missing numeric cell. -/
def someN (q : ℚ) : Option Value := some (.num q)

def colW : Column := ⟨"a", .numeric, [someN 1, none]⟩

def dfW : DataFrame := ⟨[colW]⟩

def colW9 : Column := ⟨"a", .numeric, [someN 1]⟩

def dfW9 : DataFrame := ⟨[colW9]⟩

/-- An artifact with an empty feature list (a pipeline fitted on zero
features), used to drive `impute_missing_values` directly. -/
def artEmpty : ModelArtifact := ⟨[], [], [], [], [], true⟩

def fs9 : FS := ⟨[], [(("m", "a"), artEmpty)]⟩

def colC3 : Column := ⟨"x", .numeric, [none]⟩

def dfC3 : DataFrame := ⟨[colC3]⟩

def fsC3 : FS := ⟨[], [(("m", "x"), artEmpty)]⟩

def colC3r : Column := ⟨"x", .numeric, [someN 0]⟩

def dfC3r : DataFrame := ⟨[colC3r]⟩

def colC6 : Column := ⟨"c", .category, [none, some (.str "a")]⟩

def dfC6 : DataFrame := ⟨[colC6]⟩

/-- Two numeric columns, 11 fully populated rows and one fully-null row:
a dataset on which the impute-time feature-population invariant fails. -/
def dfC5 : DataFrame :=
  ⟨[⟨"A", .numeric, [someN 1, someN 2, someN 3, someN 4, someN 5, someN 6,
      someN 7, someN 8, someN 9, someN 10, someN 11, none]⟩,
    ⟨"B", .numeric, [someN 1, someN 2, someN 3, someN 4, someN 5, someN 6,
      someN 7, someN 8, someN 9, someN 10, someN 11, none]⟩]⟩

/-- Three numeric columns over 12 rows; `A` and `B` each have one missing
value in different rows and `C` is complete, so imputing `A` first changes
the feature set later used for `B` (and vice versa). -/
def dfC7 : DataFrame :=
  ⟨[⟨"A", .numeric, [none, someN 2, someN 3, someN 4, someN 5, someN 6,
      someN 7, someN 8, someN 9, someN 10, someN 11, someN 12]⟩,
    ⟨"B", .numeric, [someN 1, none, someN 3, someN 4, someN 5, someN 6,
      someN 7, someN 8, someN 9, someN 10, someN 11, someN 12]⟩,
    ⟨"C", .numeric, [someN 1, someN 2, someN 3, someN 4, someN 5, someN 6,
      someN 7, someN 8, someN 9, someN 10, someN 11, someN 12]⟩]⟩

/-- A heap in which every reference holds `dfW`. -/
def heap0 : Heap := fun _ => dfW

/-- `ColRel L c c2` relates an input column `c` to the corresponding output
column `c2` of a `processCols` run over the column list `L`: names and
dtypes are preserved, and the cells either are untouched or (when the
column is in `L` and had at least 10 non-missing cells, i.e. its model
trained) have their missing positions filled, with the filled values
nonnegative numbers when the column dtype is numeric. -/
def ColRel (L : List String) (c c2 : Column) : Prop :=
  c2.name = c.name ∧ c2.dtype = c.dtype ∧
  ∃ f : Nat → Value,
    c2.cells = (if c.name ∈ L ∧ 10 ≤ someCount c.cells
      then fillNones f 0 c.cells else c.cells) ∧
    (c.dtype = .numeric → ∀ i, i < c.cells.length → c.cells.getD i none = none →
      ∃ q : ℚ, 0 ≤ q ∧ f i = .num q)

/-! ### Lemmas about cell-level operations -/

theorem fillNones_length (f : Nat → Value) : ∀ (n : Nat) (l : List (Option Value)),
    (fillNones f n l).length = l.length := by
  intro n l
  induction l generalizing n with
  | nil => rfl
  | cons c rest ih => cases c <;> simp [fillNones, ih]

theorem fillNones_getD_some (f : Nat → Value) :
    ∀ (n : Nat) (l : List (Option Value)) (i : Nat) (v : Value),
      l.getD i none = some v → (fillNones f n l).getD i none = some v := by
  intro n l
  induction l generalizing n with
  | nil => intro i v h; simp [List.getD] at h
  | cons c rest ih =>
    intro i v h
    cases c with
    | none =>
      cases i with
      | zero => simp at h
      | succ j =>
        simp only [List.getD_cons_succ] at h
        simpa [fillNones] using ih (n + 1) j v h
    | some w =>
      cases i with
      | zero => simpa [fillNones] using h
      | succ j =>
        simp only [List.getD_cons_succ] at h
        simpa [fillNones] using ih (n + 1) j v h

theorem fillNones_getD_none (f : Nat → Value) :
    ∀ (n : Nat) (l : List (Option Value)) (i : Nat), i < l.length →
      l.getD i none = none → (fillNones f n l).getD i none = some (f (n + i)) := by
  intro n l
  induction l generalizing n with
  | nil => intro i h; simp at h
  | cons c rest ih =>
    intro i hlt h
    cases c with
    | none =>
      cases i with
      | zero => simp [fillNones]
      | succ j =>
        simp only [List.getD_cons_succ] at h
        have := ih (n + 1) j (by simpa using Nat.lt_of_succ_lt_succ hlt) h
        simpa [fillNones, Nat.add_assoc, Nat.add_comm 1 j] using this
    | some w =>
      cases i with
      | zero => simp at h
      | succ j =>
        simp only [List.getD_cons_succ] at h
        have := ih (n + 1) j (by simpa using Nat.lt_of_succ_lt_succ hlt) h
        simpa [fillNones, Nat.add_assoc, Nat.add_comm 1 j] using this

theorem fillNones_of_nullCount_zero (f : Nat → Value) :
    ∀ (n : Nat) (l : List (Option Value)), nullCount l = 0 → fillNones f n l = l := by
  intro n l
  induction l generalizing n with
  | nil => intro; rfl
  | cons c rest ih =>
    intro h
    cases c with
    | none => simp [nullCount, List.countP_cons] at h
    | some w =>
      have hr : nullCount rest = 0 := by
        simpa [nullCount, List.countP_cons] using h
      simp [fillNones, ih (n + 1) hr]

theorem someCount_fillNones (f : Nat → Value) :
    ∀ (n : Nat) (l : List (Option Value)), someCount (fillNones f n l) = l.length := by
  intro n l
  induction l generalizing n with
  | nil => rfl
  | cons c rest ih =>
    have h := ih (n + 1)
    simp only [someCount] at h ⊢
    cases c <;> simp [fillNones, List.countP_cons, h]

theorem someCount_le_length (l : List (Option Value)) : someCount l ≤ l.length :=
  List.countP_le_length _

theorem fillNones_map_isSome (f : Nat → Value) :
    ∀ (n : Nat) (l : List (Option Value)),
      (fillNones f n l).map Option.isSome = List.replicate l.length true := by
  intro n l
  induction l generalizing n with
  | nil => rfl
  | cons c rest ih => cases c <;> simp [fillNones, ih, List.replicate_succ]

/-- Bridging row-index-based counting with direct cell counting. -/
theorem countP_getD_range (p : Option Value → Bool) :
    ∀ l : List (Option Value),
      (List.range l.length).countP (fun i => p (l.getD i none)) = l.countP p := by
  intro l
  induction l with
  | nil => rfl
  | cons c rest ih =>
    rw [List.length_cons, List.range_succ_eq_map, List.countP_cons]
    simp only [List.countP_map]
    have : ((fun i => p ((c :: rest).getD i none)) ∘ Nat.succ)
        = fun i => p (rest.getD i none) := by
      funext i; simp
    rw [this, ih]
    simp [List.countP_cons]

theorem someIdx_length (l : List (Option Value)) : (someIdx l).length = someCount l := by
  rw [someIdx, ← List.countP_eq_length_filter, countP_getD_range, someCount]

theorem mem_nullIdx (l : List (Option Value)) (i : Nat) :
    i ∈ nullIdx l ↔ i < l.length ∧ l.getD i none = none := by
  simp [nullIdx, List.mem_filter, List.mem_range, Option.isNone_iff_eq_none]

theorem map_getD_range : ∀ l : List (Option Value),
    (List.range l.length).map (fun i => l.getD i none) = l := by
  intro l
  induction l with
  | nil => rfl
  | cons c rest ih =>
    rw [List.length_cons, List.range_succ_eq_map]
    simp only [List.map_cons, List.map_map]
    have : ((fun i => (c :: rest).getD i none) ∘ Nat.succ) = fun i => rest.getD i none := by
      funext i; simp
    rw [this, ih]
    simp

/-! ### Lemmas about the file-system model -/

theorem FS.files_mkdirs (fs : FS) (d : String) : (fs.mkdirs d).files = fs.files := by
  unfold FS.mkdirs; split <;> rfl

theorem lookupFile_writeFile_self (fs : FS) (k : String × String) (a : ModelArtifact) :
    lookupFile (fs.writeFile k a).files k = some a := by
  simp [FS.writeFile, lookupFile]

theorem lookupFile_writeFile_ne (fs : FS) (k q : String × String) (a : ModelArtifact)
    (h : q ≠ k) : lookupFile (fs.writeFile k a).files q = lookupFile fs.files q := by
  simp [FS.writeFile, lookupFile, if_neg (Ne.symm h)]

theorem FS.dirs_mkdirs (fs : FS) (d x : String) :
    x ∈ (fs.mkdirs d).dirs ↔ x = d ∨ x ∈ fs.dirs := by
  unfold FS.mkdirs
  by_cases h : d ∈ fs.dirs
  · simp only [if_pos h]
    constructor
    · exact Or.inr
    · rintro (rfl | hx)
      · exact h
      · exact hx
  · simp [if_neg h, List.mem_cons]

theorem FS.dirs_writeFile (fs : FS) (k : String × String) (a : ModelArtifact) :
    (fs.writeFile k a).dirs = fs.dirs := rfl

/-! ### Lemmas about column lookup -/

theorem getCol_mem (df : DataFrame) (n : String) (c : Column)
    (h : df.getCol n = some c) : c ∈ df.cols ∧ c.name = n := by
  refine ⟨List.mem_of_find?_eq_some h, ?_⟩
  have := List.find?_some h
  simpa using this

theorem find?_name_of_mem_nodup (c : Column) : ∀ l : List Column,
    (l.map Column.name).Nodup → c ∈ l →
      l.find? (fun d => d.name == c.name) = some c := by
  intro l
  induction l with
  | nil => intro _ hc; cases hc
  | cons d rest ih =>
    intro hnd hc
    rcases List.mem_cons.mp hc with rfl | hc2
    · simp [List.find?]
    · simp only [List.map_cons, List.nodup_cons] at hnd
      have hd : (d.name == c.name) = false := by
        simp only [beq_eq_false_iff_ne, ne_eq]
        intro he
        exact hnd.1 (he ▸ List.mem_map_of_mem Column.name hc2)
      simp only [List.find?, hd]
      exact ih hnd.2 hc2

theorem getCol_of_mem_nodup (df : DataFrame) (c : Column)
    (hnd : NamesNodup df) (hc : c ∈ df.cols) : df.getCol c.name = some c :=
  find?_name_of_mem_nodup c df.cols hnd hc

theorem name_inj_nodup (df : DataFrame) (c1 c2 : Column) (hnd : NamesNodup df)
    (h1 : c1 ∈ df.cols) (h2 : c2 ∈ df.cols) (he : c1.name = c2.name) : c1 = c2 := by
  have g1 := getCol_of_mem_nodup df c1 hnd h1
  have g2 := getCol_of_mem_nodup df c2 hnd h2
  rw [he] at g1
  rw [g1] at g2
  exact (Option.some.injEq _ _).mp g2

theorem getCol_none (df : DataFrame) (n : String) (h : df.getCol n = none) :
    ∀ c ∈ df.cols, c.name ≠ n := by
  intro c hc he
  have := List.find?_eq_none.mp h c hc
  simp [he] at this

/-! ### Lemmas about `dropnaAllRows` -/

theorem getCol_dropnaAllRows (df : DataFrame) (n : String) :
    (df.dropnaAllRows).getCol n
      = (df.getCol n).map
          (fun c => { c with cells := df.keepIdx.map (fun i => c.cells.getD i none) }) := by
  unfold DataFrame.dropnaAllRows DataFrame.getCol
  simp only []
  induction df.cols with
  | nil => rfl
  | cons d rest ih =>
    simp only [List.map_cons, List.find?]
    by_cases h : d.name == n
    · simp [h]
    · simp only [h]
      exact ih

theorem isAllNullRow_false_of_some (df : DataFrame) (c : Column) (i : Nat)
    (hc : c ∈ df.cols) (hs : (c.cells.getD i none).isSome = true) :
    df.isAllNullRow i = false := by
  unfold DataFrame.isAllNullRow
  rw [List.all_eq_false]
  exact ⟨c, hc, by simp [Option.isNone_iff_eq_none]; intro h; simp [h] at hs⟩

theorem someCount_keepIdx (df : DataFrame) (c : Column) (hal : Aligned df)
    (hc : c ∈ df.cols) :
    someCount (df.keepIdx.map (fun i => c.cells.getD i none)) = someCount c.cells := by
  unfold DataFrame.keepIdx
  have h1 : someCount (((List.range df.nrows).filter
        (fun i => !(df.isAllNullRow i))).map (fun i => c.cells.getD i none))
      = List.countP (fun i => (c.cells.getD i none).isSome)
          ((List.range df.nrows).filter (fun i => !(df.isAllNullRow i))) := by
    unfold someCount
    rw [List.countP_map]
    rfl
  rw [h1, List.countP_filter]
  have h2 : List.countP (fun i => (c.cells.getD i none).isSome && !(df.isAllNullRow i))
        (List.range df.nrows)
      = List.countP (fun i => (c.cells.getD i none).isSome) (List.range df.nrows) := by
    apply List.countP_congr
    intro i _
    cases hs : (c.cells.getD i none).isSome with
    | true => simp [isAllNullRow_false_of_some df c i hc hs]
    | false => simp
  rw [h2, ← hal c hc, countP_getD_range]
  rfl

theorem dropnaAllRows_eq_self (df : DataFrame) (hal : Aligned df)
    (hna : NoAllNullRow df) : df.dropnaAllRows = df := by
  have hkeep : df.keepIdx = List.range df.nrows := by
    unfold DataFrame.keepIdx
    apply List.filter_eq_self.mpr
    intro i hi
    rw [List.mem_range] at hi
    simp [hna i hi]
  unfold DataFrame.dropnaAllRows
  rw [hkeep]
  have hcols : ∀ c ∈ df.cols,
      ({ c with cells := (List.range df.nrows).map (fun i => c.cells.getD i none) } : Column)
        = c := by
    intro c hc
    have hl := hal c hc
    cases c with
    | mk nm dt cl =>
      simp only [Column.mk.injEq, true_and]
      simp only at hl
      rw [← hl]
      exact map_getD_range cl
  have hmap : df.cols.map
        (fun c => { c with cells := (List.range df.nrows).map (fun i => c.cells.getD i none) })
      = df.cols.map id :=
    List.map_congr_left hcols
  rw [hmap, List.map_id]

theorem trainCount_eq_someCount (df : DataFrame) (t : String) (tc : Column)
    (hal : Aligned df) (htc : df.getCol t = some tc) :
    trainCount df t = someCount tc.cells := by
  unfold trainCount
  rw [getCol_dropnaAllRows df t, htc]
  exact someCount_keepIdx df tc hal (getCol_mem df t tc htc).1

/-! ### Characterization of `train_imputation_model` -/

theorem train_error (df : DataFrame) (t : String) (fs : FS) (md : String)
    (h : df.getCol t = none) :
    train_imputation_model df t fs md
      = (.error "KeyError: target column not in dataframe", fs.mkdirs md) := by
  simp only [train_imputation_model, getCol_dropnaAllRows df t, h, Option.map_none']

theorem train_skip (df : DataFrame) (t : String) (fs : FS) (md : String) (tc : Column)
    (htc : df.getCol t = some tc) (hlt : trainCount df t < 10) :
    train_imputation_model df t fs md = (.ok none, fs.mkdirs md) := by
  have hcnt : trainCount df t
      = someCount (df.keepIdx.map (fun i => tc.cells.getD i none)) := by
    unfold trainCount
    rw [getCol_dropnaAllRows df t, htc]
    rfl
  simp only [train_imputation_model, getCol_dropnaAllRows df t, htc, Option.map_some']
  rw [if_pos]
  rw [List.length_map, someIdx_length]
  rw [← hcnt]
  exact hlt

theorem trainedArtifact_features (df : DataFrame) (t : String) (tc : Column) :
    (trainedArtifact df t tc).features = features_of df.dropnaAllRows t := rfl

theorem train_some (df : DataFrame) (t : String) (fs : FS) (md : String) (tc : Column)
    (htc : df.getCol t = some tc) (hge : ¬ trainCount df t < 10) :
    train_imputation_model df t fs md
      = (.ok (some (trainedArtifact df t tc, (trainedArtifact df t tc).features)),
         (fs.mkdirs md).writeFile (md, t) (trainedArtifact df t tc)) := by
  have hcnt : trainCount df t
      = someCount (df.keepIdx.map (fun i => tc.cells.getD i none)) := by
    unfold trainCount
    rw [getCol_dropnaAllRows df t, htc]
    rfl
  simp only [train_imputation_model, getCol_dropnaAllRows df t, htc, Option.map_some']
  rw [if_neg]
  · rfl
  · rw [List.length_map, someIdx_length, ← hcnt]
    exact hge

/-! ### Lemmas about `setCol` -/

theorem find?_name_map (u : Column → Column) (hu : ∀ c, (u c).name = c.name) (n : String) :
    ∀ l : List Column,
      (l.map u).find? (fun c => c.name == n) = (l.find? (fun c => c.name == n)).map u := by
  intro l
  induction l with
  | nil => rfl
  | cons d rest ih =>
    simp only [List.map_cons, List.find?]
    rw [hu d]
    by_cases h : d.name == n
    · simp [h]
    · simp only [h]
      exact ih

theorem getCol_setCol (df : DataFrame) (n m : String) (cl : List (Option Value)) :
    (df.setCol n cl).getCol m
      = (df.getCol m).map (fun c => if c.name == n then { c with cells := cl } else c) := by
  unfold DataFrame.setCol DataFrame.getCol
  exact find?_name_map _ (fun c => by by_cases h : c.name == n <;> simp [h]) m df.cols

theorem map_name_setCol (df : DataFrame) (n : String) (cl : List (Option Value)) :
    (df.setCol n cl).cols.map Column.name = df.cols.map Column.name := by
  unfold DataFrame.setCol
  simp only [List.map_map]
  apply List.map_congr_left
  intro c _
  by_cases h : c.name == n <;> simp [Function.comp, h]

theorem namesNodup_setCol (df : DataFrame) (n : String) (cl : List (Option Value))
    (hnd : NamesNodup df) : NamesNodup (df.setCol n cl) := by
  unfold NamesNodup at *
  rw [map_name_setCol]
  exact hnd

theorem nrows_setCol (df : DataFrame) (n : String) (tc : Column) (cl : List (Option Value))
    (htc : df.getCol n = some tc) (hlen : cl.length = tc.cells.length) :
    (df.setCol n cl).nrows = df.nrows := by
  unfold DataFrame.getCol at htc
  unfold DataFrame.nrows DataFrame.setCol
  cases hc : df.cols with
  | nil => rfl
  | cons d rest =>
    simp only [List.map_cons]
    by_cases h : d.name == n
    · rw [hc] at htc
      simp only [List.find?, h] at htc
      have hd : d = tc := by
        have h2 : some d = some tc := by simpa using htc
        exact (Option.some.injEq _ _).mp h2
      subst hd
      simp [h, hlen]
    · simp [h]

theorem aligned_setCol (df : DataFrame) (n : String) (tc : Column) (cl : List (Option Value))
    (hal : Aligned df) (htc : df.getCol n = some tc) (hlen : cl.length = tc.cells.length) :
    Aligned (df.setCol n cl) := by
  intro c2 hc2
  rw [nrows_setCol df n tc cl htc hlen]
  obtain ⟨c, hc, hu⟩ := List.mem_map.mp hc2
  obtain ⟨htcm, -⟩ := getCol_mem df n tc htc
  by_cases h : c.name == n
  · rw [if_pos h] at hu
    rw [← hu]
    simpa [hlen] using hal tc htcm
  · rw [if_neg h] at hu
    rw [← hu]
    exact hal c hc

theorem setCol_self (df : DataFrame) (n : String) (tc : Column) (hnd : NamesNodup df)
    (htc : df.getCol n = some tc) : df.setCol n tc.cells = df := by
  obtain ⟨hm, hname⟩ := getCol_mem df n tc htc
  unfold DataFrame.setCol
  have hmap : df.cols.map (fun c => if c.name == n then { c with cells := tc.cells } else c)
      = df.cols.map id := by
    apply List.map_congr_left
    intro c hc
    by_cases h : c.name == n
    · have hcn : c.name = n := by simpa using h
      have he : c = tc := name_inj_nodup df c tc hnd hc hm (hcn.trans hname.symm)
      rw [if_pos h, he]
      rfl
    · rw [if_neg h]
      rfl
  rw [hmap, List.map_id]

/-! ### Characterization of `impute_missing_values` -/

theorem impute_no_model (predict : Predict) (df : DataFrame) (t : String) (fs : FS)
    (md : String) (h : lookupFile fs.files (md, t) = none) :
    impute_missing_values predict df t fs md = .ok df := by
  unfold impute_missing_values
  rw [h]

theorem impute_no_missing (predict : Predict) (df : DataFrame) (t : String) (fs : FS)
    (md : String) (tc : Column) (htc : df.getCol t = some tc)
    (h0 : nullCount tc.cells = 0) :
    impute_missing_values predict df t fs md = .ok df := by
  unfold impute_missing_values
  cases hl : lookupFile fs.files (md, t) with
  | none => rfl
  | some art =>
    rw [htc]
    simp [h0]

theorem impute_ok_cases (predict : Predict) (df : DataFrame) (t : String) (fs : FS)
    (md : String) (art : ModelArtifact) (tc : Column) (d1 : DataFrame)
    (hart : lookupFile fs.files (md, t) = some art)
    (htc : df.getCol t = some tc)
    (hok : impute_missing_values predict df t fs md = .ok d1) :
    (nullCount tc.cells = 0 ∧ d1 = df) ∨
    ∃ g : Nat → Value,
      d1 = df.setCol t (fillNones g 0 tc.cells) ∧
      (tc.dtype = .numeric → ∀ i, i < tc.cells.length → tc.cells.getD i none = none →
        ∃ q : ℚ, 0 ≤ q ∧ g i = .num q) := by
  simp only [impute_missing_values, hart, htc] at hok
  by_cases h0 : nullCount tc.cells = 0
  · rw [if_pos h0] at hok
    injection hok with h
    exact Or.inl ⟨h0, h.symm⟩
  · rw [if_neg h0] at hok
    by_cases hfeat : art.features.all (fun f => (df.getCol f).isSome)
    · rw [if_pos hfeat] at hok
      by_cases hnum : tc.dtype = .numeric
      · rw [if_pos hnum] at hok
        by_cases hn : (nullIdx tc.cells).all
            (fun i => (predict art (featureRow df art.features i)).isNum)
        · rw [if_pos hn] at hok
          injection hok with h
          refine Or.inr ⟨fun i => npMaximum0 (predict art (featureRow df art.features i)),
            h.symm, ?_⟩
          intro _ i hi hno
          have hmem : i ∈ nullIdx tc.cells := (mem_nullIdx tc.cells i).mpr ⟨hi, hno⟩
          have hisnum := List.all_eq_true.mp hn i hmem
          cases hp : predict art (featureRow df art.features i) with
          | num q =>
            refine ⟨max 0 q, le_max_left 0 q, ?_⟩
            show npMaximum0 (predict art (featureRow df art.features i)) = Value.num (max 0 q)
            rw [hp]
            rfl
          | str s =>
            rw [hp] at hisnum
            simp [Value.isNum] at hisnum
        · rw [if_neg hn] at hok
          cases hok
      · rw [if_neg hnum] at hok
        injection hok with h
        refine Or.inr ⟨fun i => predict art (featureRow df art.features i), h.symm, ?_⟩
        intro hnum2
        exact absurd hnum2 hnum
    · rw [if_neg hfeat] at hok
      cases hok

/-! ### Per-column description of a whole `processCols` run -/

theorem ColRel_of_not_filled (L : List String) (c : Column)
    (h : ¬ (c.name ∈ L ∧ 10 ≤ someCount c.cells)) : ColRel L c c :=
  ⟨rfl, rfl, fun _ => .num 0, by rw [if_neg h], fun _ i _ _ => ⟨0, le_refl 0, rfl⟩⟩

theorem ColRel_cons (c : String) (L : List String) (x y : Column)
    (hx : x.name = c → ¬ 10 ≤ someCount x.cells ∨ nullCount x.cells = 0)
    (h : ColRel L x y) : ColRel (c :: L) x y := by
  obtain ⟨hn, hd, f, hcells, hq⟩ := h
  refine ⟨hn, hd, f, ?_, hq⟩
  by_cases he : x.name = c
  · rcases hx he with h10 | h0
    · have hA : ¬ (x.name ∈ c :: L ∧ 10 ≤ someCount x.cells) := fun h2 => h10 h2.2
      have hB : ¬ (x.name ∈ L ∧ 10 ≤ someCount x.cells) := fun h2 => h10 h2.2
      rw [if_neg hA, hcells, if_neg hB]
    · have hfe := fillNones_of_nullCount_zero f 0 x.cells h0
      rw [hcells]
      by_cases hA : x.name ∈ c :: L ∧ 10 ≤ someCount x.cells <;>
        by_cases hB : x.name ∈ L ∧ 10 ≤ someCount x.cells <;>
        simp [hA, hB, hfe]
  · rw [hcells]
    by_cases hB : x.name ∈ L ∧ 10 ≤ someCount x.cells
    · rw [if_pos hB, if_pos ⟨List.mem_cons_of_mem c hB.1, hB.2⟩]
    · have hA : ¬ (x.name ∈ c :: L ∧ 10 ≤ someCount x.cells) := by
        rintro ⟨hA1, hA2⟩
        rcases List.mem_cons.mp hA1 with h1 | h1
        · exact he h1
        · exact hB ⟨h1, hA2⟩
      rw [if_neg hB, if_neg hA]

theorem ColRel_step (c : String) (L : List String) (g : Nat → Value) (x y : Column)
    (hcL : c ∉ L)
    (hxc : x.name = c → 10 ≤ someCount x.cells)
    (hgq : x.name = c → x.dtype = .numeric →
      ∀ i, i < x.cells.length → x.cells.getD i none = none →
        ∃ q : ℚ, 0 ≤ q ∧ g i = .num q)
    (h : ColRel L (if x.name == c then { x with cells := fillNones g 0 x.cells } else x) y) :
    ColRel (c :: L) x y := by
  by_cases he : x.name = c
  · rw [if_pos (by simpa using he)] at h
    obtain ⟨hn, hd, f, hcells, -⟩ := h
    refine ⟨hn, hd, g, ?_, hgq he⟩
    rw [if_pos ⟨by rw [he]; exact List.mem_cons_self c L, hxc he⟩]
    have hB : ¬ (({ x with cells := fillNones g 0 x.cells } : Column).name ∈ L ∧
        10 ≤ someCount ({ x with cells := fillNones g 0 x.cells } : Column).cells) := by
      rintro ⟨hm, -⟩
      apply hcL
      rw [← he]
      exact hm
    rw [hcells, if_neg hB]
  · rw [if_neg (by simpa using he)] at h
    exact ColRel_cons c L x y (fun he2 => absurd he2 he) h

theorem forall₂_imp_mem {R S : Column → Column → Prop} :
    ∀ {l1 l2 : List Column}, List.Forall₂ R l1 l2 →
      (∀ a ∈ l1, ∀ b, R a b → S a b) → List.Forall₂ S l1 l2 := by
  intro l1 l2 h
  induction h with
  | nil => intro _; exact .nil
  | cons hab h2 ih =>
    intro himp
    exact .cons (himp _ (List.mem_cons_self _ _) _ hab)
      (ih (fun a ha b hr => himp a (List.mem_cons_of_mem _ ha) b hr))

theorem forall₂_map_left (R : Column → Column → Prop) (u : Column → Column) :
    ∀ (l1 l2 : List Column),
      List.Forall₂ R (l1.map u) l2 → List.Forall₂ (fun a b => R (u a) b) l1 l2 := by
  intro l1
  induction l1 with
  | nil =>
    intro l2 h
    cases h
    exact .nil
  | cons a l1 ih =>
    intro l2 h
    rw [List.map_cons] at h
    cases h with
    | cons hab h2 => exact .cons hab (ih _ h2)

theorem eq_getCol_of_name (df : DataFrame) (x tc : Column) (c : String)
    (hnd : NamesNodup df) (hx : x ∈ df.cols) (hgc : df.getCol c = some tc)
    (he : x.name = c) : x = tc :=
  name_inj_nodup df x tc hnd hx (getCol_mem df c tc hgc).1
    (he.trans (getCol_mem df c tc hgc).2.symm)

/-- The central characterization: a successful `processCols` run relates
every input column to its output column by `ColRel`. -/
theorem processCols_descr (predict : Predict) (md : String) :
    ∀ (L : List String) (df : DataFrame) (fs : FS) (d2 : DataFrame) (fs2 : FS),
      Aligned df → NamesNodup df → L.Nodup →
      processCols predict md L df fs = .ok (d2, fs2) →
      List.Forall₂ (ColRel L) df.cols d2.cols := by
  intro L
  induction L with
  | nil =>
    intro df fs d2 fs2 hal hnd hLnd hok
    simp only [processCols, Except.ok.injEq, Prod.mk.injEq] at hok
    obtain ⟨h1, -⟩ := hok
    subst h1
    rw [List.forall₂_same]
    intro x _
    exact ColRel_of_not_filled [] x (fun h2 => List.not_mem_nil _ h2.1)
  | cons c L2 ih =>
    intro df fs d2 fs2 hal hnd hLnd hok
    have hcL : c ∉ L2 := by
      simp only [List.nodup_cons] at hLnd
      exact hLnd.1
    have hL2 : L2.Nodup := by
      simp only [List.nodup_cons] at hLnd
      exact hLnd.2
    simp only [processCols] at hok
    cases hgc : df.getCol c with
    | none =>
      rw [train_error df c fs md hgc] at hok
      simp at hok
    | some tc =>
      by_cases hcnt : trainCount df c < 10
      · rw [train_skip df c fs md tc hgc hcnt] at hok
        have hok2 : processCols predict md L2 df (fs.mkdirs md) = .ok (d2, fs2) := hok
        have hrec := ih df (fs.mkdirs md) d2 fs2 hal hnd hL2 hok2
        refine forall₂_imp_mem hrec ?_
        intro x hx y hr
        refine ColRel_cons c L2 x y ?_ hr
        intro he
        left
        rw [eq_getCol_of_name df x tc c hnd hx hgc he,
          ← trainCount_eq_someCount df c tc hal hgc]
        omega
      · rw [train_some df c fs md tc hgc hcnt] at hok
        have hok2 : (match impute_missing_values predict df c
              ((fs.mkdirs md).writeFile (md, c) (trainedArtifact df c tc)) md with
            | .error e => (.error e : Except String (DataFrame × FS))
            | .ok df1 => processCols predict md L2 df1
                ((fs.mkdirs md).writeFile (md, c) (trainedArtifact df c tc)))
            = .ok (d2, fs2) := hok
        cases him : impute_missing_values predict df c
            ((fs.mkdirs md).writeFile (md, c) (trainedArtifact df c tc)) md with
        | error e =>
          rw [him] at hok2
          simp at hok2
        | ok df1 =>
          rw [him] at hok2
          have hok3 : processCols predict md L2 df1
              ((fs.mkdirs md).writeFile (md, c) (trainedArtifact df c tc))
              = .ok (d2, fs2) := hok2
          have hlk := lookupFile_writeFile_self (fs.mkdirs md) (md, c) (trainedArtifact df c tc)
          have hcases := impute_ok_cases predict df c _ md (trainedArtifact df c tc) tc df1
            hlk hgc him
          rcases hcases with ⟨h0, hdf⟩ | ⟨g, hdf, hgq⟩
          · rw [hdf] at hok3
            have hrec := ih df _ d2 fs2 hal hnd hL2 hok3
            refine forall₂_imp_mem hrec ?_
            intro x hx y hr
            refine ColRel_cons c L2 x y ?_ hr
            intro he
            right
            rw [eq_getCol_of_name df x tc c hnd hx hgc he]
            exact h0
          · rw [hdf] at hok3
            have hal1 : Aligned (df.setCol c (fillNones g 0 tc.cells)) :=
              aligned_setCol df c tc _ hal hgc (fillNones_length g 0 tc.cells)
            have hnd1 : NamesNodup (df.setCol c (fillNones g 0 tc.cells)) :=
              namesNodup_setCol df c _ hnd
            have hrec := ih _ _ d2 fs2 hal1 hnd1 hL2 hok3
            rw [show (df.setCol c (fillNones g 0 tc.cells)).cols
                = df.cols.map (fun x => if x.name == c
                    then { x with cells := fillNones g 0 tc.cells } else x) from rfl] at hrec
            have hrec2 := forall₂_map_left (ColRel L2) _ df.cols d2.cols hrec
            refine forall₂_imp_mem hrec2 ?_
            intro x hx y hr
            have hconv : (if x.name == c
                  then ({ x with cells := fillNones g 0 tc.cells } : Column) else x)
                = (if x.name == c then { x with cells := fillNones g 0 x.cells } else x) := by
              by_cases hb : x.name == c
              · rw [if_pos hb, if_pos hb,
                  eq_getCol_of_name df x tc c hnd hx hgc (by simpa using hb)]
              · rw [if_neg hb, if_neg hb]
            rw [hconv] at hr
            refine ColRel_step c L2 g x y hcL ?_ ?_ hr
            · intro he
              rw [eq_getCol_of_name df x tc c hnd hx hgc he,
                ← trainCount_eq_someCount df c tc hal hgc]
              omega
            · intro he hnum i hi hno
              have hxe := eq_getCol_of_name df x tc c hnd hx hgc he
              rw [hxe] at hnum hi hno
              exact hgq hnum i hi hno

/-! ### Consequences of `ColRel` -/

theorem ColRel_someCount_le (L : List String) (c c2 : Column) (h : ColRel L c c2) :
    someCount c.cells ≤ someCount c2.cells := by
  obtain ⟨-, -, f, hcells, -⟩ := h
  rw [hcells]
  by_cases hcond : c.name ∈ L ∧ 10 ≤ someCount c.cells
  · rw [if_pos hcond, someCount_fillNones]
    exact someCount_le_length c.cells
  · rw [if_neg hcond]

theorem ColRel_eq_of_nullCount_zero (L : List String) (c c2 : Column)
    (h0 : nullCount c.cells = 0) (h : ColRel L c c2) : c2 = c := by
  obtain ⟨hn, hd, f, hcells, -⟩ := h
  rw [fillNones_of_nullCount_zero f 0 c.cells h0, ite_self] at hcells
  cases c2
  cases c
  simp_all

theorem ColRel_eq_of_not_mem (L : List String) (c c2 : Column)
    (hnm : c.name ∉ L) (h : ColRel L c c2) : c2 = c := by
  obtain ⟨hn, hd, f, hcells, -⟩ := h
  rw [if_neg (fun h2 => hnm h2.1)] at hcells
  cases c2
  cases c
  simp_all

theorem ColRel_eq_of_count_lt (L : List String) (c c2 : Column)
    (hlt : someCount c.cells < 10) (h : ColRel L c c2) : c2 = c := by
  obtain ⟨hn, hd, f, hcells, -⟩ := h
  rw [if_neg (fun h2 => absurd h2.2 (by omega))] at hcells
  cases c2
  cases c
  simp_all

theorem ColRel_mask (L1 L2 : List String) (hiff : ∀ n, n ∈ L1 ↔ n ∈ L2)
    (a b1 b2 : Column) (h1 : ColRel L1 a b1) (h2 : ColRel L2 a b2) :
    b1.name = b2.name ∧ b1.dtype = b2.dtype ∧
    b1.cells.map Option.isSome = b2.cells.map Option.isSome := by
  obtain ⟨hn1, hd1, f1, hc1, -⟩ := h1
  obtain ⟨hn2, hd2, f2, hc2, -⟩ := h2
  refine ⟨hn1.trans hn2.symm, hd1.trans hd2.symm, ?_⟩
  rw [hc1, hc2]
  by_cases hcond : a.name ∈ L1 ∧ 10 ≤ someCount a.cells
  · rw [if_pos hcond, if_pos ⟨(hiff a.name).mp hcond.1, hcond.2⟩,
      fillNones_map_isSome, fillNones_map_isSome]
  · rw [if_neg hcond, if_neg (fun h2 => hcond ⟨(hiff a.name).mpr h2.1, h2.2⟩)]

theorem forall₂_comp {R S T : Column → Column → Prop}
    (h : ∀ a b1 b2, R a b1 → S a b2 → T b1 b2) :
    ∀ (l : List Column) (l1 l2 : List Column),
      List.Forall₂ R l l1 → List.Forall₂ S l l2 → List.Forall₂ T l1 l2 := by
  intro l
  induction l with
  | nil =>
    intro l1 l2 h1 h2
    cases h1
    cases h2
    exact .nil
  | cons a tl ih =>
    intro l1 l2 h1 h2
    cases h1 with
    | cons hr h1t =>
      cases h2 with
      | cons hs h2t =>
        exact .cons (h _ _ _ hr hs) (ih _ _ h1t h2t)

theorem forall₂_map_self (R : Column → Column → Prop) (u : Column → Column) :
    ∀ l : List Column, (∀ a ∈ l, R a (u a)) → List.Forall₂ R l (l.map u) := by
  intro l
  induction l with
  | nil => intro _; exact .nil
  | cons a tl ih =>
    intro h
    exact .cons (h a (List.mem_cons_self a tl))
      (ih (fun x hx => h x (List.mem_cons_of_mem a hx)))

theorem forall₂_totalSome_le (l1 l2 : List Column)
    (h : List.Forall₂ (fun a b => someCount a.cells ≤ someCount b.cells) l1 l2) :
    (l1.map (fun c => someCount c.cells)).sum ≤ (l2.map (fun c => someCount c.cells)).sum := by
  induction h with
  | nil => exact le_refl 0
  | cons hab h2 ih =>
    simp only [List.map_cons, List.sum_cons]
    exact Nat.add_le_add hab ih

theorem forall₂_find?_name {R : Column → Column → Prop}
    (hRname : ∀ a b, R a b → b.name = a.name) :
    ∀ {l1 l2 : List Column}, List.Forall₂ R l1 l2 → ∀ n : String,
      (l1.find? (fun c => c.name == n) = none ∧ l2.find? (fun c => c.name == n) = none) ∨
      (∃ a b, R a b ∧ l1.find? (fun c => c.name == n) = some a ∧
        l2.find? (fun c => c.name == n) = some b) := by
  intro l1 l2 h
  induction h with
  | nil => intro n; exact Or.inl ⟨rfl, rfl⟩
  | @cons a b tl1 tl2 hab htl ih =>
    intro n
    by_cases hb : a.name == n
    · have hb2 : (b.name == n) = true := by
        rw [hRname a b hab]
        exact hb
      exact Or.inr ⟨a, b, hab, by simp [List.find?, hb], by simp [List.find?, hb2]⟩
    · have hb2 : (b.name == n) = false := by
        rw [hRname a b hab]
        simpa using hb
      have hb1 : (a.name == n) = false := by simpa using hb
      rcases ih n with ⟨h1, h2⟩ | ⟨a2, b2, hr, h1, h2⟩
      · exact Or.inl ⟨by simp [List.find?, hb1, h1], by simp [List.find?, hb2, h2]⟩
      · exact Or.inr ⟨a2, b2, hr, by simp [List.find?, hb1, h1], by simp [List.find?, hb2, h2]⟩

theorem getCol_forall₂ {R : Column → Column → Prop}
    (hRname : ∀ a b, R a b → b.name = a.name)
    (df d2 : DataFrame) (h : List.Forall₂ R df.cols d2.cols) (n : String) (c : Column)
    (hgc : df.getCol n = some c) : ∃ b, R c b ∧ d2.getCol n = some b := by
  rcases forall₂_find?_name hRname h n with ⟨h1, -⟩ | ⟨a, b, hr, h1, h2⟩
  · unfold DataFrame.getCol at hgc
    rw [h1] at hgc
    cases hgc
  · unfold DataFrame.getCol at hgc
    rw [h1] at hgc
    have ha : a = c := (Option.some.injEq _ _).mp hgc
    subst ha
    exact ⟨b, hr, h2⟩

/-! ### Lemmas about eligible columns -/

theorem mem_eligible_cols (df : DataFrame) (c : Column) (hnd : NamesNodup df)
    (hc : c ∈ df.cols) :
    c.name ∈ eligible_cols df
      ↔ (0 < nullCount c.cells ∧ (c.dtype = .numeric ∨ c.dtype = .object)) := by
  unfold eligible_cols target_cols
  rw [List.mem_filter]
  constructor
  · rintro ⟨hmem, hpred⟩
    rw [List.mem_map] at hmem
    obtain ⟨d, hdm, hdn⟩ := hmem
    rw [List.mem_filter] at hdm
    have hd : d = c := name_inj_nodup df d c hnd hdm.1 hc hdn
    subst hd
    refine ⟨by simpa using hdm.2, ?_⟩
    unfold is_numeric_or_object at hpred
    rw [getCol_of_mem_nodup df d hnd hc] at hpred
    rcases Bool.or_eq_true_iff.mp hpred with h | h
    · exact Or.inl (by simpa using h)
    · exact Or.inr (by simpa using h)
  · rintro ⟨hnc, hdt⟩
    refine ⟨?_, ?_⟩
    · rw [List.mem_map]
      exact ⟨c, List.mem_filter.mpr ⟨hc, by simpa using hnc⟩, rfl⟩
    · unfold is_numeric_or_object
      rw [getCol_of_mem_nodup df c hnd hc]
      rcases hdt with h | h <;> simp [h]

theorem eligible_nodup (df : DataFrame) (hnd : NamesNodup df) :
    (eligible_cols df).Nodup := by
  unfold eligible_cols
  apply List.Nodup.filter
  unfold target_cols
  have hsub : List.Sublist
      ((df.cols.filter (fun c => 0 < nullCount c.cells)).map Column.name)
      (df.cols.map Column.name) := (List.filter_sublist df.cols).map Column.name
  exact List.Nodup.sublist hsub hnd

theorem mem_features_of (df : DataFrame) (t f : String) (h : f ∈ features_of df t) :
    ∃ cf ∈ df.cols, cf.name = f ∧ nullCount cf.cells = 0 := by
  unfold features_of at h
  rw [List.mem_map] at h
  obtain ⟨cf, hm, rfl⟩ := h
  rw [List.mem_filter] at hm
  refine ⟨cf, hm.1, rfl, ?_⟩
  have h2 := hm.2
  simp only [Bool.and_eq_true, beq_iff_eq] at h2
  exact h2.2

/-! ### Lemmas for the impute-time invariant check -/

theorem invariantOKat_trainedArtifact (df : DataFrame) (t : String) (tc : Column)
    (hal : Aligned df) (hnd : NamesNodup df) (hna : NoAllNullRow df) :
    invariantOKat df (trainedArtifact df t tc) = true := by
  unfold invariantOKat
  rw [List.all_eq_true]
  intro f hf
  rw [trainedArtifact_features, dropnaAllRows_eq_self df hal hna] at hf
  obtain ⟨cf, hcfm, hname, h0⟩ := mem_features_of df t f hf
  subst hname
  rw [getCol_of_mem_nodup df cf hnd hcfm]
  simpa using h0

theorem noAllNull_setCol_fillNones (df : DataFrame) (n : String) (tc : Column)
    (g : Nat → Value) (hal : Aligned df) (htc : df.getCol n = some tc)
    (hna : NoAllNullRow df) :
    NoAllNullRow (df.setCol n (fillNones g 0 tc.cells)) := by
  intro i hi
  rw [nrows_setCol df n tc _ htc (fillNones_length g 0 tc.cells)] at hi
  have h2 := hna i hi
  unfold DataFrame.isAllNullRow at h2 ⊢
  rw [List.all_eq_false] at h2 ⊢
  obtain ⟨c, hc, hcf⟩ := h2
  refine ⟨if c.name == n then { c with cells := fillNones g 0 tc.cells } else c,
    List.mem_map_of_mem _ hc, ?_⟩
  by_cases hb : c.name == n
  · rw [if_pos hb]
    have hlen : i < tc.cells.length := by
      rw [hal tc (getCol_mem df n tc htc).1]
      exact hi
    cases hcell : tc.cells.getD i none with
    | some v =>
      show ¬ ((fillNones g 0 tc.cells).getD i none).isNone = true
      rw [fillNones_getD_some g 0 tc.cells i v hcell]
      simp
    | none =>
      show ¬ ((fillNones g 0 tc.cells).getD i none).isNone = true
      rw [fillNones_getD_none g 0 tc.cells i hlen hcell]
      simp
  · rw [if_neg hb]
    exact hcf

/-- The ghost boolean of `processColsChecked` records nothing but the actual
dataframe/file behaviour of `processCols`. -/
theorem processColsChecked_fst (predict : Predict) (md : String) :
    ∀ (L : List String) (df : DataFrame) (fs : FS) (b : Bool),
      (processColsChecked predict md L df fs b).1 = processCols predict md L df fs := by
  intro L
  induction L with
  | nil => intro df fs b; rfl
  | cons c L2 ih =>
    intro df fs b
    unfold processColsChecked processCols
    cases htr : train_imputation_model df c fs md with
    | mk res fs1 =>
      cases res with
      | error e => rfl
      | ok o =>
        cases o with
        | none => exact ih df fs1 b
        | some p =>
          show (match impute_missing_values predict df c fs1 md with
              | .error e => ((.error e : Except String (DataFrame × FS)),
                  b && checkAt df fs1 md c)
              | .ok df1 => processColsChecked predict md L2 df1 fs1
                  (b && checkAt df fs1 md c)).1
            = (match impute_missing_values predict df c fs1 md with
              | .error e => (.error e : Except String (DataFrame × FS))
              | .ok df1 => processCols predict md L2 df1 fs1)
          cases him : impute_missing_values predict df c fs1 md with
          | error e => rfl
          | ok df1 => exact ih df1 fs1 _

/-- Under alignment, unique names and no fully-null row, every impute-time
check of a run passes: the ghost boolean never drops. -/
theorem processColsChecked_bool (predict : Predict) (md : String) :
    ∀ (L : List String) (df : DataFrame) (fs : FS) (b : Bool),
      Aligned df → NamesNodup df → NoAllNullRow df →
      (processColsChecked predict md L df fs b).2 = b := by
  intro L
  induction L with
  | nil => intro df fs b _ _ _; rfl
  | cons c L2 ih =>
    intro df fs b hal hnd hna
    cases hgc : df.getCol c with
    | none =>
      show (processColsChecked predict md (c :: L2) df fs b).2 = b
      simp only [processColsChecked]
      rw [train_error df c fs md hgc]
    | some tc =>
      by_cases hcnt : trainCount df c < 10
      · show (processColsChecked predict md (c :: L2) df fs b).2 = b
        simp only [processColsChecked]
        rw [train_skip df c fs md tc hgc hcnt]
        exact ih df (fs.mkdirs md) b hal hnd hna
      · show (processColsChecked predict md (c :: L2) df fs b).2 = b
        simp only [processColsChecked]
        rw [train_some df c fs md tc hgc hcnt]
        have hb1 : (b && checkAt df
            ((fs.mkdirs md).writeFile (md, c) (trainedArtifact df c tc)) md c) = b := by
          unfold checkAt
          rw [lookupFile_writeFile_self]
          show (b && invariantOKat df (trainedArtifact df c tc)) = b
          rw [invariantOKat_trainedArtifact df c tc hal hnd hna]
          exact Bool.and_true b
        show (match impute_missing_values predict df c
              ((fs.mkdirs md).writeFile (md, c) (trainedArtifact df c tc)) md with
          | .error e => ((.error e : Except String (DataFrame × FS)),
              b && checkAt df ((fs.mkdirs md).writeFile (md, c) (trainedArtifact df c tc)) md c)
          | .ok df1 => processColsChecked predict md L2 df1
              ((fs.mkdirs md).writeFile (md, c) (trainedArtifact df c tc))
              (b && checkAt df ((fs.mkdirs md).writeFile (md, c) (trainedArtifact df c tc)) md c)).2
          = b
        rw [hb1]
        cases him : impute_missing_values predict df c
            ((fs.mkdirs md).writeFile (md, c) (trainedArtifact df c tc)) md with
        | error e => rfl
        | ok df1 =>
          show (processColsChecked predict md L2 df1
            ((fs.mkdirs md).writeFile (md, c) (trainedArtifact df c tc)) b).2 = b
          rcases impute_ok_cases predict df c _ md (trainedArtifact df c tc) tc df1
              (lookupFile_writeFile_self (fs.mkdirs md) (md, c) (trainedArtifact df c tc))
              hgc him with ⟨h0, hdf⟩ | ⟨g, hdf, -⟩
          · rw [hdf]
            exact ih df _ b hal hnd hna
          · rw [hdf]
            exact ih _ _ b
              (aligned_setCol df c tc _ hal hgc (fillNones_length g 0 tc.cells))
              (namesNodup_setCol df c _ hnd)
              (noAllNull_setCol_fillNones df c tc g hal hgc hna)

/-! ### Heap lemmas for the frame-effect claims -/

theorem Heap.update_same (h : Heap) (r : Nat) (df : DataFrame) :
    (h.update r df) r = df := by
  simp [Heap.update]

theorem Heap.update_ne (h : Heap) (r x : Nat) (df : DataFrame) (hx : x ≠ r) :
    (h.update r df) x = h x := by
  simp [Heap.update, hx]

theorem Heap.update_update (h : Heap) (r : Nat) (a b : DataFrame) :
    (h.update r a).update r b = h.update r b := by
  funext x
  by_cases hx : x = r <;> simp [Heap.update, hx]

theorem Heap.update_self (h : Heap) (r : Nat) : h.update r (h r) = h := by
  funext x
  by_cases hx : x = r <;> simp [Heap.update, hx]

theorem processColsHeap_ne (predict : Predict) (md : String) :
    ∀ (L : List String) (h : Heap) (rc : Nat) (fs : FS) (x : Nat), x ≠ rc →
      (processColsHeap predict md L h rc fs).1 x = h x := by
  intro L
  induction L with
  | nil => intro h rc fs x _; rfl
  | cons c L2 ih =>
    intro h rc fs x hx
    unfold processColsHeap
    cases htr : train_imputation_model (h rc) c fs md with
    | mk res fs1 =>
      cases res with
      | error e => rfl
      | ok o =>
        cases o with
        | none => exact ih h rc fs1 x hx
        | some p =>
          show (match impute_missing_values predict (h rc) c fs1 md with
              | .error e => (h, fs1, (.error e : Except String Unit))
              | .ok df1 => processColsHeap predict md L2 (h.update rc df1) rc fs1).1 x
            = h x
          cases him : impute_missing_values predict (h rc) c fs1 md with
          | error e => rfl
          | ok df1 =>
            rw [ih (h.update rc df1) rc fs1 x hx]
            exact Heap.update_ne h rc x df1 hx

theorem processColsHeap_eq (predict : Predict) (md : String) :
    ∀ (L : List String) (h : Heap) (rc : Nat) (fs : FS) (d : DataFrame) (fs2 : FS),
      processCols predict md L (h rc) fs = .ok (d, fs2) →
      processColsHeap predict md L h rc fs = (h.update rc d, fs2, .ok ()) := by
  intro L
  induction L with
  | nil =>
    intro h rc fs d fs2 hok
    simp only [processCols, Except.ok.injEq, Prod.mk.injEq] at hok
    obtain ⟨h1, h2⟩ := hok
    subst h1
    subst h2
    show (h, fs, (.ok () : Except String Unit)) = (h.update rc (h rc), fs, .ok ())
    rw [Heap.update_self]
  | cons c L2 ih =>
    intro h rc fs d fs2 hok
    simp only [processCols] at hok
    unfold processColsHeap
    cases htr : train_imputation_model (h rc) c fs md with
    | mk res fs1 =>
      rw [htr] at hok
      cases res with
      | error e => simp at hok
      | ok o =>
        cases o with
        | none =>
          have hok2 : processCols predict md L2 (h rc) fs1 = .ok (d, fs2) := hok
          exact ih h rc fs1 d fs2 hok2
        | some p =>
          have hok2 : (match impute_missing_values predict (h rc) c fs1 md with
              | .error e => (.error e : Except String (DataFrame × FS))
              | .ok df1 => processCols predict md L2 df1 fs1) = .ok (d, fs2) := hok
          show (match impute_missing_values predict (h rc) c fs1 md with
              | .error e => (h, fs1, (.error e : Except String Unit))
              | .ok df1 => processColsHeap predict md L2 (h.update rc df1) rc fs1)
            = (h.update rc d, fs2, .ok ())
          cases him : impute_missing_values predict (h rc) c fs1 md with
          | error e =>
            rw [him] at hok2
            simp at hok2
          | ok df1 =>
            rw [him] at hok2
            have hok3 : processCols predict md L2 df1 fs1 = .ok (d, fs2) := hok2
            have hrec := ih (h.update rc df1) rc fs1 d fs2
              (by rw [Heap.update_same]; exact hok3)
            show processColsHeap predict md L2 (h.update rc df1) rc fs1
              = (h.update rc d, fs2, .ok ())
            rw [hrec, Heap.update_update]

theorem fill_null_ML_heap_fst (predict : Predict) (md : String) (h : Heap)
    (r rc : Nat) (fs : FS) :
    (fill_null_ML_heap predict h r rc fs md).1
      = (processColsHeap predict md (eligible_cols (h r)) (h.update rc (h r)) rc fs).1 := by
  show (match processColsHeap predict md (eligible_cols ((h.update rc (h r)) rc))
      (h.update rc (h r)) rc fs with
    | (h2, fs2, .ok ()) => (h2, fs2, (.ok rc : Except String Nat))
    | (h2, fs2, .error e) => (h2, fs2, .error e)).1
    = (processColsHeap predict md (eligible_cols (h r)) (h.update rc (h r)) rc fs).1
  rw [Heap.update_same]
  rcases processColsHeap predict md (eligible_cols (h r)) (h.update rc (h r)) rc fs
    with ⟨h2, fs2, res⟩
  cases res with
  | error e => rfl
  | ok u => cases u; rfl

theorem fill_null_ML_heap_ok (predict : Predict) (md : String) (h : Heap)
    (r rc : Nat) (fs : FS) (d : DataFrame) (fs2 : FS)
    (hok : fill_null_ML predict (h r) fs md = .ok (d, fs2)) :
    fill_null_ML_heap predict h r rc fs md
      = ((h.update rc (h r)).update rc d, fs2, .ok rc) := by
  have hpc : processCols predict md (eligible_cols (h r)) ((h.update rc (h r)) rc) fs
      = .ok (d, fs2) := by
    rw [Heap.update_same]
    exact hok
  have hph := processColsHeap_eq predict md (eligible_cols (h r)) (h.update rc (h r))
    rc fs d fs2 hpc
  show (match processColsHeap predict md (eligible_cols ((h.update rc (h r)) rc))
      (h.update rc (h r)) rc fs with
    | (h2, fs2x, .ok ()) => (h2, fs2x, (.ok rc : Except String Nat))
    | (h2, fs2x, .error e) => (h2, fs2x, .error e))
    = ((h.update rc (h r)).update rc d, fs2, .ok rc)
  rw [Heap.update_same, hph]

theorem train_fs_frame (df : DataFrame) (t : String) (fs : FS) (md : String) :
    ((train_imputation_model df t fs md).2.dirs = (fs.mkdirs md).dirs) ∧
    ((train_imputation_model df t fs md).2.files = fs.files ∨
      ∃ a, (train_imputation_model df t fs md).2.files = ((md, t), a) :: fs.files) := by
  cases hgc : df.getCol t with
  | none =>
    rw [train_error df t fs md hgc]
    exact ⟨rfl, Or.inl (FS.files_mkdirs fs md)⟩
  | some tc =>
    by_cases hcnt : trainCount df t < 10
    · rw [train_skip df t fs md tc hgc hcnt]
      exact ⟨rfl, Or.inl (FS.files_mkdirs fs md)⟩
    · rw [train_some df t fs md tc hgc hcnt]
      refine ⟨rfl, Or.inr ⟨trainedArtifact df t tc, ?_⟩⟩
      show ((md, t), trainedArtifact df t tc) :: (fs.mkdirs md).files
        = ((md, t), trainedArtifact df t tc) :: fs.files
      rw [FS.files_mkdirs]

theorem setCol_cols (df : DataFrame) (n : String) (cl : List (Option Value)) :
    (df.setCol n cl).cols
      = df.cols.map (fun c => if c.name == n then { c with cells := cl } else c) := rfl

theorem getD_none_of_le (l : List (Option Value)) (i : Nat) (h : l.length ≤ i) :
    l.getD i none = none := by
  simp [List.getD_eq_getElem?_getD, List.getElem?_eq_none h]

/-! ### The claims -/

/-- C1: `fill_null_ML(dataset, model_dir)` operates on a copy: the caller's
dataframe object (reference `r`) is unchanged on the heap after the call,
and on success the returned reference holds exactly the value computed by
the pure column-processing pipeline applied to the input. -/
theorem claim_C1 : ∀ (predict : Predict) (h : Heap) (r rc : Nat) (fs : FS) (md : String),
    rc ≠ r →
    (fill_null_ML_heap predict h r rc fs md).1 r = h r ∧
    ∀ (d : DataFrame) (fs2 : FS),
      fill_null_ML predict (h r) fs md = .ok (d, fs2) →
      (fill_null_ML_heap predict h r rc fs md).1 rc = d := by
  intro predict h r rc fs md hne
  constructor
  · rw [fill_null_ML_heap_fst]
    rw [processColsHeap_ne predict md _ _ rc fs r (Ne.symm hne)]
    exact Heap.update_ne h rc r (h r) (Ne.symm hne)
  · intro d fs2 hok
    rw [fill_null_ML_heap_ok predict md h r rc fs d fs2 hok]
    exact Heap.update_same _ rc d

theorem claim_C1_witness :
    (fill_null_ML_heap predictConst heap0 0 1 fs0 "m").1 0 = heap0 0 ∧
    (fill_null_ML_heap predictConst heap0 0 1 fs0 "m").1 1 = dfW :=
  ⟨(claim_C1 predictConst heap0 0 1 fs0 "m" (by decide)).1,
   (claim_C1 predictConst heap0 0 1 fs0 "m" (by decide)).2 dfW fsM (by decide)⟩

/-- C2: `fill_null_ML` never reduces the total count of non-missing cells,
and every column with zero missing values before the call is bit-for-bit
unchanged in the result; `impute_missing_values` writes only at the missing
positions of the target column, every other position (and every other
column) is untouched. -/
theorem claim_C2 :
    (∀ (predict : Predict) (df : DataFrame) (fs : FS) (md : String)
        (d2 : DataFrame) (fs2 : FS),
      Aligned df → NamesNodup df →
      fill_null_ML predict df fs md = .ok (d2, fs2) →
      totalSomeCount df ≤ totalSomeCount d2 ∧
      List.Forall₂ (fun c c2 => nullCount c.cells = 0 → c2 = c) df.cols d2.cols) ∧
    (∀ (predict : Predict) (df : DataFrame) (t : String) (fs : FS) (md : String)
        (d1 : DataFrame),
      NamesNodup df →
      impute_missing_values predict df t fs md = .ok d1 →
      List.Forall₂ (fun c c1 =>
        (c.name ≠ t → c1 = c) ∧
        ∀ i v, c.cells.getD i none = some v → c1.cells.getD i none = some v)
        df.cols d1.cols) := by
  constructor
  · intro predict df fs md d2 fs2 hal hnd hok
    have hdescr := processCols_descr predict md (eligible_cols df) df fs d2 fs2 hal hnd
      (eligible_nodup df hnd) hok
    constructor
    · unfold totalSomeCount
      exact forall₂_totalSome_le df.cols d2.cols
        (List.Forall₂.imp (fun a b h => ColRel_someCount_le _ a b h) hdescr)
    · exact List.Forall₂.imp
        (fun a b h h0 => ColRel_eq_of_nullCount_zero _ a b h0 h) hdescr
  · intro predict df t fs md d1 hnd hok
    cases hl : lookupFile fs.files (md, t) with
    | none =>
      rw [impute_no_model predict df t fs md hl] at hok
      injection hok with h
      subst h
      rw [List.forall₂_same]
      intro x _
      exact ⟨fun _ => rfl, fun i v hv => hv⟩
    | some art =>
      cases hgc : df.getCol t with
      | none =>
        simp only [impute_missing_values, hl, hgc] at hok
        cases hok
      | some tc =>
        rcases impute_ok_cases predict df t fs md art tc d1 hl hgc hok
          with ⟨h0, hdd⟩ | ⟨g, hdd, -⟩
        · subst hdd
          rw [List.forall₂_same]
          intro x _
          exact ⟨fun _ => rfl, fun i v hv => hv⟩
        · subst hdd
          rw [setCol_cols]
          apply forall₂_map_self
          intro a ha
          by_cases hb : a.name == t
          · refine ⟨fun hne => absurd (by simpa using hb) hne, ?_⟩
            intro i v hv
            rw [if_pos hb]
            have ha2 : a = tc := eq_getCol_of_name df a tc t hnd ha hgc (by simpa using hb)
            show (fillNones g 0 tc.cells).getD i none = some v
            rw [ha2] at hv
            exact fillNones_getD_some g 0 tc.cells i v hv
          · exact ⟨fun _ => by rw [if_neg hb], fun i v hv => by rw [if_neg hb]; exact hv⟩

theorem claim_C2_witness :
    (totalSomeCount dfW ≤ totalSomeCount dfW ∧
      List.Forall₂ (fun c c2 => nullCount c.cells = 0 → c2 = c) dfW.cols dfW.cols) ∧
    List.Forall₂ (fun c c1 =>
      (c.name ≠ "a" → c1 = c) ∧
      ∀ i v, c.cells.getD i none = some v → c1.cells.getD i none = some v)
      dfW9.cols dfW9.cols :=
  ⟨claim_C2.1 predictConst dfW fs0 "m" dfW fsM (by decide) (by decide) (by decide),
   claim_C2.2 predictConst dfW9 "a" fs0 "m" dfW9 (by decide) (by decide)⟩

/-- C3: for a numeric target column, every cell that
`impute_missing_values` changed holds a nonnegative number: predictions are
clamped to a minimum of zero before being written. -/
theorem claim_C3 : ∀ (predict : Predict) (df : DataFrame) (t : String) (fs : FS)
    (md : String) (tc c1 : Column) (d1 : DataFrame),
    df.getCol t = some tc → tc.dtype = .numeric →
    impute_missing_values predict df t fs md = .ok d1 →
    d1.getCol t = some c1 →
    ∀ i, c1.cells.getD i none ≠ tc.cells.getD i none →
      ∃ q : ℚ, 0 ≤ q ∧ c1.cells.getD i none = some (.num q) := by
  intro predict df t fs md tc c1 d1 hgc hnum hok hgc1 i hdiff
  cases hl : lookupFile fs.files (md, t) with
  | none =>
    rw [impute_no_model predict df t fs md hl] at hok
    injection hok with h
    subst h
    rw [hgc] at hgc1
    have he : tc = c1 := (Option.some.injEq _ _).mp hgc1
    rw [← he] at hdiff
    exact absurd rfl hdiff
  | some art =>
    rcases impute_ok_cases predict df t fs md art tc d1 hl hgc hok
      with ⟨h0, hdd⟩ | ⟨g, hdd, hq⟩
    · subst hdd
      rw [hgc] at hgc1
      have he : tc = c1 := (Option.some.injEq _ _).mp hgc1
      rw [← he] at hdiff
      exact absurd rfl hdiff
    · subst hdd
      rw [getCol_setCol df t t _, hgc] at hgc1
      simp only [Option.map_some'] at hgc1
      have htcn : (tc.name == t) = true := by simpa using (getCol_mem df t tc hgc).2
      rw [if_pos htcn] at hgc1
      have hc1 : c1 = { tc with cells := fillNones g 0 tc.cells } :=
        ((Option.some.injEq _ _).mp hgc1).symm
      subst hc1
      show ∃ q : ℚ, 0 ≤ q ∧ (fillNones g 0 tc.cells).getD i none = some (.num q)
      by_cases hlen : i < tc.cells.length
      · cases hcell : tc.cells.getD i none with
        | some v =>
          refine absurd ?_ hdiff
          show (fillNones g 0 tc.cells).getD i none = tc.cells.getD i none
          rw [fillNones_getD_some g 0 tc.cells i v hcell, hcell]
        | none =>
          obtain ⟨q, hq0, hgi⟩ := hq hnum i hlen hcell
          refine ⟨q, hq0, ?_⟩
          rw [fillNones_getD_none g 0 tc.cells i hlen hcell, Nat.zero_add, hgi]
      · refine absurd ?_ hdiff
        show (fillNones g 0 tc.cells).getD i none = tc.cells.getD i none
        rw [getD_none_of_le tc.cells i (Nat.le_of_not_lt hlen),
          getD_none_of_le _ i (by rw [fillNones_length]; exact Nat.le_of_not_lt hlen)]

theorem claim_C3_witness :
    ∃ q : ℚ, 0 ≤ q ∧ colC3r.cells.getD 0 none = some (.num q) :=
  claim_C3 predictNeg dfC3 "x" fsC3 "m" colC3 colC3r dfC3r (by decide) (by decide)
    (by decide) (by decide) 0 (by decide)

/-- C4: when fewer than 10 rows have a non-missing target value (after
dropping fully-empty rows), `train_imputation_model` returns `(None, None)`
without an error and writes no artifact, and the column is unchanged (in
particular its missing values remain missing) after `fill_null_ML`. -/
theorem claim_C4 : ∀ (df : DataFrame) (t : String) (fs : FS) (md : String) (tc : Column),
    Aligned df → NamesNodup df → df.getCol t = some tc → trainCount df t < 10 →
    (train_imputation_model df t fs md = (.ok none, fs.mkdirs md) ∧
      (fs.mkdirs md).files = fs.files) ∧
    ∀ (predict : Predict) (d2 : DataFrame) (fs2 : FS),
      fill_null_ML predict df fs md = .ok (d2, fs2) →
      ∃ c2, d2.getCol t = some c2 ∧ c2.cells = tc.cells := by
  intro df t fs md tc hal hnd hgc hcnt
  refine ⟨⟨train_skip df t fs md tc hgc hcnt, FS.files_mkdirs fs md⟩, ?_⟩
  intro predict d2 fs2 hok
  have hdescr := processCols_descr predict md (eligible_cols df) df fs d2 fs2 hal hnd
    (eligible_nodup df hnd) hok
  obtain ⟨b, hr, hb⟩ := getCol_forall₂ (fun a b h => h.1) df d2 hdescr t tc hgc
  have hlt : someCount tc.cells < 10 := by
    rw [← trainCount_eq_someCount df t tc hal hgc]
    exact hcnt
  exact ⟨b, hb, by rw [ColRel_eq_of_count_lt _ tc b hlt hr]⟩

theorem claim_C4_witness :
    (train_imputation_model dfW "a" fs0 "m" = (.ok none, fs0.mkdirs "m") ∧
      (fs0.mkdirs "m").files = fs0.files) ∧
    ∃ c2, dfW.getCol "a" = some c2 ∧ c2.cells = colW.cells :=
  have h := claim_C4 dfW "a" fs0 "m" colW (by decide) (by decide) (by decide) (by decide)
  ⟨h.1, h.2 predictConst dfW fsM (by decide)⟩

/-- C5 (amended): on a dataset with no fully-empty row, whenever
`fill_null_ML` reaches an impute call, the feature columns the loaded
artifact expects are present and fully populated in the dataframe at that
moment (ghost-checked by `processColsChecked`); with a fully-empty row the
invariant can fail, see the counterexample. -/
theorem claim_C5 : ∀ (predict : Predict) (df : DataFrame) (fs : FS) (md : String),
    Aligned df → NamesNodup df → NoAllNullRow df →
    (processColsChecked predict md (eligible_cols df) df fs true).2 = true := by
  intro predict df fs md hal hnd hna
  exact processColsChecked_bool predict md (eligible_cols df) df fs true hal hnd hna

/-- C5 counterexample: on `dfC5` (aligned, distinct names, but with one
fully-null row) a run of the pipeline makes an impute call whose artifact
expects feature column `B` even though `B` has a missing value in the
dataframe at that moment: the claimed invariant is false as stated. -/
theorem claim_C5_counterexample :
    Aligned dfC5 ∧ NamesNodup dfC5 ∧
    (processColsChecked predictConst "m" (eligible_cols dfC5) dfC5 fs0 true).2 = false := by
  decide

theorem claim_C5_witness :
    (processColsChecked predictConst "m" (eligible_cols dfW9) dfW9 fs0 true).2 = true :=
  claim_C5 predictConst dfW9 fs0 "m" (by decide) (by decide) (by decide)

/-- C6 (amended): `fill_null_ML` selects exactly the columns with at least
one missing value whose dtype is numeric or object (text); columns of any
other dtype — including pandas `category`, which the spec's
"text/categorical" wording would cover — are never selected and never
modified. -/
theorem claim_C6 : ∀ (df : DataFrame), NamesNodup df → ∀ c ∈ df.cols,
    ((c.name ∈ eligible_cols df)
      ↔ (0 < nullCount c.cells ∧ (c.dtype = .numeric ∨ c.dtype = .object))) ∧
    (∀ (predict : Predict) (fs : FS) (md : String) (d2 : DataFrame) (fs2 : FS),
      Aligned df → c.name ∉ eligible_cols df →
      fill_null_ML predict df fs md = .ok (d2, fs2) →
      d2.getCol c.name = some c) := by
  intro df hnd c hc
  refine ⟨mem_eligible_cols df c hnd hc, ?_⟩
  intro predict fs md d2 fs2 hal hnm hok
  have hdescr := processCols_descr predict md (eligible_cols df) df fs d2 fs2 hal hnd
    (eligible_nodup df hnd) hok
  have hgc := getCol_of_mem_nodup df c hnd hc
  obtain ⟨b, hr, hb⟩ := getCol_forall₂ (fun a b h => h.1) df d2 hdescr c.name c hgc
  rw [hb, ColRel_eq_of_not_mem _ c b hnm hr]

/-- C6 counterexample: `dfC6` has a single `category`-dtype column with a
missing value; the spec-worded selection (`spec_eligible_cols`) includes it,
but the code (`eligible_cols`, which tests only `is_numeric_dtype` and
`is_object_dtype`) does not select it. -/
theorem claim_C6_counterexample :
    colC6 ∈ dfC6.cols ∧ 0 < nullCount colC6.cells ∧ colC6.dtype = .category ∧
    eligible_cols dfC6 = [] ∧ spec_eligible_cols dfC6 = ["c"] := by
  decide

theorem claim_C6_witness :
    (("c" ∈ eligible_cols dfC6)
      ↔ (0 < nullCount colC6.cells ∧ (colC6.dtype = .numeric ∨ colC6.dtype = .object))) ∧
    dfC6.getCol "c" = some colC6 :=
  have h := claim_C6 dfC6 (by decide) colC6 (by decide)
  ⟨h.1, h.2 predictConst fs0 "m" dfC6 fs0 (by decide) (by decide) (by decide)⟩

/-- C7 (amended): processing the eligible columns in any permutation of the
natural order yields a dataframe with the same column names, dtypes and
missingness pattern (the same cells are filled); the filled values
themselves may depend on the order, see the counterexample. -/
theorem claim_C7 : ∀ (predict : Predict) (df : DataFrame) (fs : FS) (md : String)
    (L : List String) (d1 : DataFrame) (fs1 : FS) (d2 : DataFrame) (fs2 : FS),
    Aligned df → NamesNodup df → L.Perm (eligible_cols df) →
    processCols predict md L df fs = .ok (d1, fs1) →
    fill_null_ML predict df fs md = .ok (d2, fs2) →
    List.Forall₂ (fun c1 c2 => c1.name = c2.name ∧ c1.dtype = c2.dtype ∧
      c1.cells.map Option.isSome = c2.cells.map Option.isSome) d1.cols d2.cols := by
  intro predict df fs md L d1 fs1 d2 fs2 hal hnd hperm hok1 hok2
  have hLnd : L.Nodup := (hperm.nodup_iff).mpr (eligible_nodup df hnd)
  have h1 := processCols_descr predict md L df fs d1 fs1 hal hnd hLnd hok1
  have h2 := processCols_descr predict md (eligible_cols df) df fs d2 fs2 hal hnd
    (eligible_nodup df hnd) hok2
  exact forall₂_comp (fun a b1 b2 hr hs =>
    ColRel_mask L (eligible_cols df) (fun n => hperm.mem_iff) a b1 b2 hr hs)
    df.cols d1.cols d2.cols h1 h2

/-- C7 counterexample: on `dfC7`, running the eligible columns in the order
`["B", "A"]` (a permutation of the natural order `["A", "B"]`, each column's
train preceding its own impute) produces a different final dataset than the
natural order: the claimed order-independence of the result is false. -/
theorem claim_C7_counterexample :
    List.Perm ["B", "A"] (eligible_cols dfC7) ∧
    (resultDf (processCols predictFeatLen "m" ["B", "A"] dfC7 fs0)).isSome = true ∧
    resultDf (processCols predictFeatLen "m" ["B", "A"] dfC7 fs0)
      ≠ resultDf (fill_null_ML predictFeatLen dfC7 fs0 "m") := by
  refine ⟨?_, by decide, by decide⟩
  rw [show eligible_cols dfC7 = ["A", "B"] from by decide]
  exact List.Perm.swap "A" "B" []

theorem claim_C7_witness :
    List.Forall₂ (fun c1 c2 => c1.name = c2.name ∧ c1.dtype = c2.dtype ∧
      c1.cells.map Option.isSome = c2.cells.map Option.isSome) dfW.cols dfW.cols :=
  claim_C7 predictConst dfW fs0 "m" ["a"] dfW fsM dfW fsM (by decide) (by decide)
    (by rw [show eligible_cols dfW = ["a"] from by decide]) (by decide) (by decide)

/-- C8: when no persisted artifact named `<model_dir>/<target>_model.pkl`
exists, `impute_missing_values` returns the dataframe unchanged and raises
no error. -/
theorem claim_C8 : ∀ (predict : Predict) (df : DataFrame) (t : String) (fs : FS)
    (md : String),
    lookupFile fs.files (md, t) = none →
    impute_missing_values predict df t fs md = .ok df :=
  fun predict df t fs md h => impute_no_model predict df t fs md h

theorem claim_C8_witness :
    impute_missing_values predictConst dfW "a" fs0 "m" = .ok dfW :=
  claim_C8 predictConst dfW "a" fs0 "m" (by decide)

/-- C9: `impute_missing_values` on a target column with zero missing values
is the identity on the dataset. -/
theorem claim_C9 : ∀ (predict : Predict) (df : DataFrame) (t : String) (fs : FS)
    (md : String) (tc : Column),
    df.getCol t = some tc → nullCount tc.cells = 0 →
    impute_missing_values predict df t fs md = .ok df :=
  fun predict df t fs md tc hgc h0 => impute_no_missing predict df t fs md tc hgc h0

theorem claim_C9_witness :
    impute_missing_values predictConst dfW9 "a" fs9 "m" = .ok dfW9 :=
  claim_C9 predictConst dfW9 "a" fs9 "m" colW9 (by decide) (by decide)

/-- C10: `train_imputation_model` never mutates the dataframe passed to it
(no heap cell changes); its only externally visible effects are creating
the model directory and writing the artifact at `(model_dir, target)`:
every other file key is unchanged. -/
theorem claim_C10 : ∀ (h : Heap) (r : Nat) (t : String) (fs : FS) (md : String),
    (∀ x, (train_imputation_model_heap h r t fs md).1 x = h x) ∧
    (∀ k, k ≠ (md, t) →
      lookupFile ((train_imputation_model_heap h r t fs md).2.2).files k
        = lookupFile fs.files k) ∧
    (∀ dd, dd ∈ ((train_imputation_model_heap h r t fs md).2.2).dirs
      ↔ (dd = md ∨ dd ∈ fs.dirs)) := by
  intro h r t fs md
  refine ⟨fun x => rfl, ?_, ?_⟩
  · intro k hk
    show lookupFile ((train_imputation_model (h r) t fs md).2).files k
      = lookupFile fs.files k
    rcases (train_fs_frame (h r) t fs md).2 with hfe | ⟨a, hfe⟩
    · rw [hfe]
    · rw [hfe]
      show (if ((md, t) : String × String) = k then some a else lookupFile fs.files k)
        = lookupFile fs.files k
      rw [if_neg (Ne.symm hk)]
  · intro dd
    show dd ∈ ((train_imputation_model (h r) t fs md).2).dirs ↔ (dd = md ∨ dd ∈ fs.dirs)
    rw [(train_fs_frame (h r) t fs md).1]
    exact FS.dirs_mkdirs fs md dd

theorem claim_C10_witness :
    (train_imputation_model_heap heap0 0 "a" fs0 "m").1 5 = heap0 5 ∧
    lookupFile ((train_imputation_model_heap heap0 0 "a" fs0 "m").2.2).files ("m", "b")
      = lookupFile fs0.files ("m", "b") ∧
    ("m" ∈ ((train_imputation_model_heap heap0 0 "a" fs0 "m").2.2).dirs
      ↔ ("m" = "m" ∨ "m" ∈ fs0.dirs)) :=
  ⟨(claim_C10 heap0 0 "a" fs0 "m").1 5,
   (claim_C10 heap0 0 "a" fs0 "m").2.1 ("m", "b") (by decide),
   (claim_C10 heap0 0 "a" fs0 "m").2.2 "m"⟩

end DataCleaning
